import Mathlib

/-!
Verification development for the gitscan repository-status scanner.

This file gives a shallow embedding, in Lean, of the core scanner code
(`gitscan/scanner/read.py` and `gitscan/scanner/search.py`) and proves the
specification claims about it.  Pure computations are translated to Lean
functions; the interactions with the outside world (the git metadata
accessor, the OS process table, the wall clock, the multiprocessing stop
event, and subprocess exit codes) are modelled as explicit environment data
consumed by those functions, in the order the source consumes them.
-/

/-! ## Fetch outcome flags (`FetchStatus` in read.py)

`FetchStatus` is a Python `Flag` enum with four independent atoms
(TIMEOUT, ERROR, CANCEL, OK); values may be bitwise unions of atoms.
We model a flag value as four booleans and union as pointwise `or`. -/

structure FetchFlags where
  timeout : Bool
  error : Bool
  cancel : Bool
  ok : Bool
deriving DecidableEq, Repr

/-- Bitwise union (`|` on the Python `Flag` values). -/
def FetchFlags.union (a b : FetchFlags) : FetchFlags :=
  ⟨a.timeout || b.timeout, a.error || b.error, a.cancel || b.cancel, a.ok || b.ok⟩

/-- The empty flag set (no atom present). -/
def FetchFlags.empty : FetchFlags := ⟨false, false, false, false⟩

/-- The `FetchStatus.TIMEOUT` atom. -/
def FetchFlags.TIMEOUT : FetchFlags := ⟨true, false, false, false⟩

/-- The `FetchStatus.ERROR` atom. -/
def FetchFlags.ERROR : FetchFlags := ⟨false, true, false, false⟩

/-- The `FetchStatus.CANCEL` atom. -/
def FetchFlags.CANCEL : FetchFlags := ⟨false, false, true, false⟩

/-- The `FetchStatus.OK` atom. -/
def FetchFlags.OK : FetchFlags := ⟨false, false, false, true⟩

/-- A flag value is an atom when it is one of the four single-flag values
returned by `git_fetch_with_timeout`. -/
def FetchFlags.isAtom (f : FetchFlags) : Bool :=
  f = FetchFlags.TIMEOUT || f = FetchFlags.ERROR ||
    f = FetchFlags.CANCEL || f = FetchFlags.OK

/-! ## The fetch supervisor (`git_fetch_with_timeout` in read.py)

The function launches `git fetch` in a subprocess and polls it.  The
subprocess, the wall clock, the OS process table and the stop event are
external; we model each iteration of the polling loop as one observation
record (`Tick`) supplied by the environment: what `proc.poll()` returned at
the top of the iteration, the statuses of the process tree
(`children(recursive=True)` plus the process itself, in that order), the
wall-clock reading used by that iteration, and the observed value of the
stop event.  A finite tick list stands for the finite prefix of the loop
that has run; exhausting the list while the subprocess is still alive means
the loop has not yet exited. -/

inductive ProcStatus where
  | running
  | idle
  | sleeping
  | other
deriving DecidableEq, Repr

structure Tick where
  exited : Option Int
  procStatuses : List ProcStatus
  now : Int
  stopSet : Bool
deriving Repr

/-- Mutable state of the polling loop: `startB`, the two timeout budgets
(which the heuristic doubles), and the `three_processes` latch. -/
structure LoopState where
  startB : Int
  timeoutA : Int
  timeoutB : Int
  threeProcesses : Bool
deriving DecidableEq, Repr

/-- How the polling loop in `git_fetch_with_timeout` ended. -/
inductive LoopExit where
  | natural (code : Int)
  | timeoutIdle
  | timeoutOverall
  | stopped
  | stillRunning
deriving DecidableEq, Repr

/-- One pass of the source's `while proc.poll() is None:` loop, iterated
over the supplied tick observations.  Mirrors read.py lines 91-118:
the three-process doubling heuristic, the reset of `startB` on observed
running/idle activity, the idle-timeout break, the overall-timeout break,
and the stop-event break, in that order. -/
def pollLoop (startA : Int) : List Tick → LoopState → LoopExit
  | [], _ => .stillRunning
  | t :: rest, s =>
    match t.exited with
    | some code => .natural code
    | none =>
      let s1 := if !s.threeProcesses && decide (t.procStatuses.length ≥ 3) then
          { s with threeProcesses := true,
                   timeoutB := s.timeoutB * 2, timeoutA := s.timeoutA * 2 }
        else s
      let s2 := if t.procStatuses.any
          (fun st => st = ProcStatus.idle || st = ProcStatus.running) then
          { s1 with startB := t.now }
        else s1
      if t.now - s2.startB > s2.timeoutB then .timeoutIdle
      else if t.now - startA > s2.timeoutA then .timeoutOverall
      else if t.stopSet then .stopped
      else pollLoop startA rest s2

/-- The observable result of one `git_fetch_with_timeout` call: the
returned flag value, plus the side effects performed after the loop —
whether the whole process tree was killed and whether the top-level
subprocess handle was then waited on (the bounded `proc.wait(timeout_A_s)`). -/
structure FetchCallResult where
  status : FetchFlags
  killedTree : Bool
  waitedAfterKill : Bool
deriving DecidableEq, Repr

/-- `git_fetch_with_timeout` (read.py lines 64-138).  `startA` is the
wall-clock value captured at entry (the source reads the clock twice in
succession for `startA` and `startB`; we model the two reads as equal).
`none` means the polling loop has not yet exited within the supplied
observations, i.e. the call has not returned yet. -/
def git_fetch_with_timeout (ticks : List Tick)
    (startA timeoutA timeoutB : Int) : Option FetchCallResult :=
  match pollLoop startA ticks ⟨startA, timeoutA, timeoutB, false⟩ with
  | .stillRunning => none
  | .natural code =>
      some ⟨if code ≠ 0 then FetchFlags.ERROR else FetchFlags.OK, false, false⟩
  | .timeoutIdle => some ⟨FetchFlags.TIMEOUT, true, true⟩
  | .timeoutOverall => some ⟨FetchFlags.TIMEOUT, true, true⟩
  | .stopped => some ⟨FetchFlags.CANCEL, true, true⟩

/-! ## Path handling (`extract_repo_name` in read.py)

Filesystem paths are modelled as their component lists.  `pyStem`
reproduces `pathlib.PurePath.stem` on a single component: the position of
the last dot is found (`name.rfind('.')`); only when that position is
neither the leading nor the trailing character does it begin a suffix,
which is stripped; in every other case (no dot, or the last dot leading
or trailing) the whole name is the stem. -/

def pyStem (name : String) : String :=
  let cs := name.toList
  let n := cs.length
  let idxs := (List.range n).filter (fun i => cs.getD i ' ' = '.')
  match idxs.getLast? with
  | none => name
  | some i => if 0 < i ∧ i < n - 1 then String.mk (cs.take i) else name

/-- `extract_repo_name` (read.py lines 141-158): repo display name, repo
directory and containing directory derived from the path of the git
metadata directory.  Returns `none` in the one case where the source
raises (`gitpath.parents[1]` on a too-short path), which the caller's
`except` turns into a failed read. -/
def extract_repo_name (p : List String) :
    Option (String × List String × List String) :=
  if pyStem (p.getLastD "") = ".git" then
    if p.length < 2 then none
    else some (pyStem ((p.dropLast).getLastD ""), p.dropLast, p.dropLast.dropLast)
  else
    some (pyStem (p.getLastD ""), p, p.dropLast)

/-! ## The git metadata accessor model

`read_repo` queries one repository through the external git accessor
(GitPython's `Repo`).  We model the accessor's view of one repository:
commits form a finite DAG (`parents`), refs resolve names to tip commits,
and the remaining queries are recorded fields.  `headCommit = none` models
an unborn HEAD (where `iter_commits()` raises `ValueError`);
`activeBranch = none` models `active_branch` raising `TypeError`. -/

structure Commit where
  id : Nat
  parents : List Nat
  committedDatetime : Int
deriving DecidableEq, Repr

structure Branch where
  name : String
  tracking : Option String
deriving DecidableEq, Repr

structure GitRepo where
  bare : Bool
  headDetached : Bool
  remoteNames : List String
  branches : List Branch
  tagCount : Nat
  submoduleNames : List String
  indexDirtyRaw : Bool
  workingTreeDirtyRaw : Bool
  untrackedCount : Nat
  stashListLen : Nat
  commits : List Commit
  headCommit : Option Nat
  activeBranch : Option String
  refs : List (String × Nat)
deriving Repr

/-- Models the accessor's `Repo.is_dirty(index=..., working_tree=...,
untracked_files=False, submodules=True)`: GitPython documents that a bare
repository is always reported clean; otherwise the requested kinds of
dirtiness are consulted. -/
def GitRepo.isDirty (r : GitRepo) (index workingTree : Bool) : Bool :=
  if r.bare then false
  else (index && r.indexDirtyRaw) || (workingTree && r.workingTreeDirtyRaw)

/-- Look a commit object up by id in the object store. -/
def findCommit (cs : List Commit) (i : Nat) : Option Commit :=
  cs.find? (fun c => c.id = i)

/-- Fuelled DAG search collecting the commits reachable from a frontier. -/
def reachAux (cs : List Commit) : Nat → List Nat → List Nat → List Nat
  | 0, _, visited => visited
  | _ + 1, [], visited => visited
  | fuel + 1, i :: frontier, visited =>
    if visited.contains i then reachAux cs fuel frontier visited
    else
      match findCommit cs i with
      | none => reachAux cs fuel frontier visited
      | some c => reachAux cs fuel (c.parents ++ frontier) (i :: visited)

/-- Fuel amply sufficient to exhaust the finite commit DAG. -/
def reachFuel (cs : List Commit) : Nat :=
  (cs.length + 1) * ((cs.map (fun c => c.parents.length)).sum + 2)

/-- The set (as a duplicate-free list) of commit ids reachable from `i`,
i.e. the commits `iter_commits(i)` would yield. -/
def reachSet (cs : List Commit) (i : Nat) : List Nat :=
  reachAux cs (reachFuel cs) [i] []

/-- Resolve a ref name to its tip commit id (`none`: the ref does not
resolve, so git would raise when asked to walk it). -/
def refTip (r : GitRepo) (name : String) : Option Nat :=
  (r.refs.find? (fun x => x.fst = name)).map Prod.snd

/-- The names of all refs of the repository (`repo.refs`). -/
def refNames (r : GitRepo) : List String := r.refs.map Prod.fst

/-- Number of commits `iter_commits("excl..incl")` yields: reachable from
`inclTip` but not from `exclTip`. -/
def rangeCount (cs : List Commit) (exclTip inclTip : Nat) : Nat :=
  ((reachSet cs inclTip).filter
    (fun i => !(reachSet cs exclTip).contains i)).length

/-- `iter_commits(branch).__next__().committed_datetime`: the timestamp of
the branch's tip commit; `none` models the git error the source's outer
`except` catches (unresolvable branch ref or missing commit object). -/
def tipTime (r : GitRepo) (b : Branch) : Option Int :=
  (refTip r b.name).bind
    (fun i => (findCommit r.commits i).map (fun c => c.committedDatetime))

/-- `sum(1 for _ in repo.iter_commits())` with `ValueError` (unborn HEAD)
handled as zero (read.py lines 195-199). -/
def commitCount (r : GitRepo) : Nat :=
  match r.headCommit with
  | none => 0
  | some h => (reachSet r.commits h).length

/-! ## `read_repo` (read.py lines 161-285) -/

def DETACHED_BRANCH_DISPLAY_NAME : String := "DETACHED"
def NO_BRANCH_DISPLAY_NAME : String := "-"
def UNFETCHED_REMOTE_WARNING : String := "Remotes not fetched"
def FETCH_FAILED_WARNING : String := "Fetch failed"
def FETCH_TIMEOUT_WARNING : String := "Fetch timed-out"

/-- The value of the shared stop event at its `k`-th observation by this
worker.  A multiprocessing event, once set, stays set, so the worker's
successive reads are monotone; `stopFrom = some s` means the event is
observed set from the `s`-th observation on, `none` means it is never
observed set (also covering `_stop_event_global is None`). -/
def stopSeen (stopFrom : Option Nat) (k : Nat) : Bool :=
  match stopFrom with
  | none => false
  | some s => s ≤ k

/-- Environment of one `read_repo` call: the repository as the accessor
presents it (`none`: `Repo(path_to_git)` raises), the fetch flag, the
stop-event observations, and the outcome each per-remote
`git_fetch_with_timeout` call returns (indexed by remote position). -/
structure ReadEnv where
  repo : Option GitRepo
  fetchRemotes : Bool
  stopFrom : Option Nat
  fetchResult : Nat → FetchFlags

/-- The source's guard `branch.tracking_branch() is not None and
branch.tracking_branch() in repo.refs`. -/
def trackedResolves (r : GitRepo) (b : Branch) : Bool :=
  match b.tracking with
  | none => false
  | some t => (refNames r).contains t

/-- Commits ahead: `iter_commits(f"{tracking}..{branch}")` counted; `none`
models git raising on an unresolvable end of the range. -/
def branchAhead (r : GitRepo) (b : Branch) : Option Nat :=
  match b.tracking with
  | none => none
  | some tn =>
    match refTip r b.name, refTip r tn with
    | some bt, some tt => some (rangeCount r.commits tt bt)
    | _, _ => none

/-- Commits behind: `iter_commits(f"{branch}..{tracking}")` counted. -/
def branchBehind (r : GitRepo) (b : Branch) : Option Nat :=
  match b.tracking with
  | none => none
  | some tn =>
    match refTip r b.name, refTip r tn with
    | some bt, some tt => some (rangeCount r.commits bt tt)
    | _, _ => none

/-- The ahead/behind accumulation loop (read.py lines 260-267), threading
the `(ahead, behind)` accumulator over the branch list. -/
def countsFold (r : GitRepo) : List Branch → Nat × Nat → Option (Nat × Nat)
  | [], ab => some ab
  | b :: rest, ab =>
    if trackedResolves r b then
      match branchAhead r b, branchBehind r b with
      | some x, some y => countsFold r rest (ab.1 + x, ab.2 + y)
      | _, _ => none
    else countsFold r rest ab

/-- The per-remote fetch loop (read.py lines 233-258): before fetching the
`i`-th remote the stop event is observed (observation `i + 1`; observation
`0` happened at function entry) and a set event aborts the whole read;
otherwise the remote's fetch outcome is unioned into the nullable
aggregate. -/
def fetchLoop (fetchResult : Nat → FetchFlags) (stopFrom : Option Nat) :
    List String → Nat → Option FetchFlags → Option (Option FetchFlags)
  | [], _, acc => some acc
  | _ :: rest, i, acc =>
    if stopSeen stopFrom (i + 1) then none
    else
      fetchLoop fetchResult stopFrom rest (i + 1)
        (match acc with
         | none => some (fetchResult i)
         | some a => some (a.union (fetchResult i)))

/-- The `if not repo.bare and info['branch_count']:` block (read.py lines
231-267): optional fetching followed by ahead/behind accumulation;
`none` aborts the read (stop event seen between fetches, or a git error
in the range walks). -/
def fetchAndCounts (r : GitRepo) (env : ReadEnv) :
    Option (Nat × Nat × Option FetchFlags) :=
  if !r.bare && r.branches.length != 0 then
    match (if env.fetchRemotes then
            fetchLoop env.fetchResult env.stopFrom r.remoteNames 0 none
           else some none) with
    | none => none
    | some fs =>
      match countsFold r r.branches (0, 0) with
      | none => none
      | some ab => some (ab.1, ab.2, fs)
  else some (0, 0, none)

/-- Display branch name (read.py lines 215-224): the no-branch sentinel
for zero branches or a detached `active_branch` access, overridden by the
detached sentinel when HEAD is detached. -/
def displayBranchName (r : GitRepo) : String :=
  let bn := if r.branches.length = 0 then NO_BRANCH_DISPLAY_NAME
    else match r.activeBranch with
      | some n => n
      | none => NO_BRANCH_DISPLAY_NAME
  if r.headDetached then DETACHED_BRANCH_DISPLAY_NAME else bn

/-- The warning derivation (read.py lines 271-279). -/
def computeWarning (fetchRemotes : Bool) (remoteCount : Nat)
    (fs : Option FetchFlags) : Option String :=
  if !fetchRemotes && decide (remoteCount > 0) then
    some UNFETCHED_REMOTE_WARNING
  else
    match fs with
    | none => none
    | some f =>
      if f.error then some FETCH_FAILED_WARNING
      else if f.timeout then some FETCH_TIMEOUT_WARNING
      else none

/-- The branch-tip timestamp loop body: collect the tip timestamp of each
branch in order, aborting on the first git error. -/
def tipTimesList (r : GitRepo) : List Branch → Option (List Int)
  | [] => some []
  | b :: rest =>
    match tipTime r b, tipTimesList r rest with
    | some t, some ts => some (t :: ts)
    | _, _ => none

/-- The branch-tip timestamp loop (read.py lines 208-213); `none` models a
git error on some branch, which aborts the whole read. -/
def lastCommitTimes (r : GitRepo) : Option (List Int) :=
  tipTimesList r r.branches

/-- `None if not last_commits else max(last_commits)`. -/
def lastCommitDatetime (times : List Int) : Option Int :=
  match times with
  | [] => none
  | t :: ts => some (ts.foldl max t)

/-- The status record `read_repo` returns (the `info` dict). -/
structure RepoInfo where
  name : String
  repo_dir : List String
  containing_dir : List String
  bare : Bool
  detached_head : Bool
  remote_count : Nat
  remote_names : List String
  branch_count : Nat
  branch_names : List String
  tag_count : Nat
  submodule_names : List String
  index_changes : Bool
  working_tree_changes : Bool
  commit_count : Nat
  untracked_count : Nat
  stash : Bool
  last_commit_datetime : Option Int
  branch_name : String
  behind_count : Nat
  ahead_count : Nat
  fetch_status : Option FetchFlags
  up_to_date : Bool
  warning : Option String
deriving DecidableEq, Repr

/-- Assembly of the `info` record from the successful sub-computations,
field for field as read.py lines 174-279 populate the dict.  `counts` is
`(ahead, behind, aggregate fetch status)`. -/
def buildInfo (r : GitRepo) (fetchRemotes : Bool)
    (ex : String × List String × List String) (times : List Int)
    (counts : Nat × Nat × Option FetchFlags) : RepoInfo :=
  { name := ex.1
    repo_dir := ex.2.1
    containing_dir := ex.2.2
    bare := r.bare
    detached_head := r.headDetached
    remote_count := r.remoteNames.length
    remote_names := r.remoteNames
    branch_count := r.branches.length
    branch_names := r.branches.map Branch.name
    tag_count := r.tagCount
    submodule_names := r.submoduleNames
    index_changes := r.isDirty true false
    working_tree_changes := r.isDirty false true
    commit_count := commitCount r
    untracked_count := if !r.bare then r.untrackedCount else 0
    stash := if !r.bare then decide (r.stashListLen > 0) else false
    last_commit_datetime := lastCommitDatetime times
    branch_name := displayBranchName r
    behind_count := counts.2.1
    ahead_count := counts.1
    fetch_status := counts.2.2
    up_to_date := decide (counts.2.1 = 0) && decide (counts.1 = 0)
    warning := computeWarning fetchRemotes r.remoteNames.length counts.2.2 }

/-- `read_repo` (read.py lines 161-285): stop-event fast exit, repository
open, name extraction, metadata reads, optional fetching, ahead/behind
counts; any modelled git error or a stop-event observation makes the whole
read degrade to `none` exactly as the source's `return None` paths and its
outer `except Exception` do. -/
def read_repo (path : List String) (env : ReadEnv) : Option RepoInfo :=
  if stopSeen env.stopFrom 0 then none
  else
    env.repo.bind (fun r =>
      (extract_repo_name path).bind (fun ex =>
        (lastCommitTimes r).bind (fun times =>
          (fetchAndCounts r env).map (fun counts =>
            buildInfo r env.fetchRemotes ex times counts))))

/-- `read_repo_parallel` (read.py lines 42-61): `multiprocessing.Pool.map`
applies the pre-bound `read_repo` to every path and returns the
results in input order (the documented order-preserving semantics of
`Pool.map`); each worker sees its own environment for its path. -/
def read_repo_parallel (paths : List (List String)) (fetchRemotes : Bool)
    (world : List String → ReadEnv) : List (Option RepoInfo) :=
  paths.map (fun p => read_repo p { world p with fetchRemotes := fetchRemotes })

/-! ## Repository search (`find_git_repos` in search.py)

The filesystem is a finite tree of named directories, each with a list of
plain file names.  `os.walk(start_dir)` performs a top-down traversal in
which the code prunes the child list in place before the walk descends,
so pruning governs both descent and the `"refs" in dirs` /
`"objects" in dirs` classification checks.  The `stop_event` parameter
defaults to `None` and the embedding models that default (no early
stop).  Results are sorted as Python sorts the path strings. -/

mutual
inductive FSTree where
  | node : FSList → List String → FSTree
inductive FSList where
  | nil : FSList
  | cons : String → FSTree → FSList → FSList
end

/-- The names of the child directories, in listing order. -/
def FSList.names : FSList → List String
  | .nil => []
  | .cons x _ rest => x :: rest.names

/-- The pruning predicate of search.py line 24-25: keep child `x` of the
directory at `path` unless `path/x` is an excluded directory, or `x` is
named `modules` while the current directory's name has stem `.git`. -/
def keepChild (excl : List (List String)) (path : List String)
    (x : String) : Bool :=
  !excl.contains (path ++ [x]) &&
    !(x = "modules" && pyStem (path.getLastD "") = ".git")

/-- The classification check of search.py line 26, applied to the pruned
child list: a `HEAD` file plus surviving `refs` and `objects` children. -/
def isRepoRoot (excl : List (List String)) (path : List String)
    (ds : FSList) (files : List String) : Bool :=
  files.contains "HEAD" &&
    ((FSList.names ds).filter (keepChild excl path)).contains "refs" &&
    ((FSList.names ds).filter (keepChild excl path)).contains "objects"

mutual
/-- The `os.walk` loop of search.py lines 20-27 from one visited
directory: record the directory if it classifies as a repository root,
then descend into the children that survive pruning, in order. -/
def walkFrom (excl : List (List String)) (path : List String) :
    FSTree → List (List String)
  | .node ds files =>
    (if isRepoRoot excl path ds files then [path] else []) ++
      walkKids excl path ds
/-- Descent over a (pruned-on-the-fly) child list. -/
def walkKids (excl : List (List String)) (path : List String) :
    FSList → List (List String)
  | .nil => []
  | .cons x t rest =>
    (if keepChild excl path x then walkFrom excl (path ++ [x]) t else []) ++
      walkKids excl path rest
end

/-- The path string Python sorts (components joined by the separator). -/
def pathStr (p : List String) : String := String.intercalate "/" p

/-- Order on paths used by `list_path_to_git.sort()`. -/
def pathLe (a b : List String) : Prop := pathStr a ≤ pathStr b

instance : DecidableRel pathLe :=
  fun a b => inferInstanceAs (Decidable (pathStr a ≤ pathStr b))

instance : IsTotal (List String) pathLe :=
  ⟨fun a b => le_total (pathStr a) (pathStr b)⟩

instance : IsTrans (List String) pathLe :=
  ⟨fun _ _ _ hab hbc => le_trans hab hbc⟩

/-- `find_git_repos` (search.py lines 10-29) with the default
`stop_event=None`: walk the tree rooted at `start`, then sort. -/
def find_git_repos (start : List String) (t : FSTree)
    (excl : List (List String)) : List (List String) :=
  List.insertionSort pathLe (walkFrom excl start t)

mutual
/-- Every directory the walk visits, with its subtree: the start
directory unconditionally, and recursively every pruning-surviving child
of a visited directory.  (Characterisation used to state what
`find_git_repos` returns.) -/
def visitedDirs (excl : List (List String)) (path : List String) :
    FSTree → List (List String × FSTree)
  | .node ds files => (path, .node ds files) :: visitedKids excl path ds
def visitedKids (excl : List (List String)) (path : List String) :
    FSList → List (List String × FSTree)
  | .nil => []
  | .cons x t rest =>
    (if keepChild excl path x then visitedDirs excl (path ++ [x]) t else []) ++
      visitedKids excl path rest
end

/-- Classification of a visited directory, as the claim states it over
the surviving child list. -/
def classifiedVisited (excl : List (List String))
    (pt : List String × FSTree) : Bool :=
  match pt.2 with
  | .node ds files => isRepoRoot excl pt.1 ds files

/-! ## Helper lemmas -/

/-- Inversion of a successful `read_repo`: each stage succeeded and the
record is the assembled `buildInfo`. -/
theorem read_repo_some_elim {path : List String} {env : ReadEnv}
    {info : RepoInfo} (h : read_repo path env = some info) :
    ∃ r ex times counts, env.repo = some r ∧
      extract_repo_name path = some ex ∧
      lastCommitTimes r = some times ∧ fetchAndCounts r env = some counts ∧
      info = buildInfo r env.fetchRemotes ex times counts := by
  unfold read_repo at h
  split at h
  · exact absurd h (by simp)
  · simp only [Option.bind_eq_some, Option.map_eq_some'] at h
    obtain ⟨r, hr, ex, hex, times, ht, counts, hc, hinfo⟩ := h
    exact ⟨r, ex, times, counts, hr, hex, ht, hc, hinfo.symm⟩

/-! ## Shared concrete environments (used by witnesses and counterexamples) -/

/-- A freshly-initialised repository: no commits, branches or remotes. -/
def rEmpty : GitRepo :=
  { bare := false, headDetached := false, remoteNames := [], branches := [],
    tagCount := 0, submoduleNames := [], indexDirtyRaw := false,
    workingTreeDirtyRaw := false, untrackedCount := 0, stashListLen := 0,
    commits := [], headCommit := none, activeBranch := none, refs := [] }

def envEmpty : ReadEnv :=
  { repo := some rEmpty, fetchRemotes := false, stopFrom := none,
    fetchResult := fun _ => FetchFlags.OK }

/-- The record `read_repo ["repo"] envEmpty` returns. -/
def infoEmpty : RepoInfo :=
  { name := "repo", repo_dir := ["repo"], containing_dir := [], bare := false,
    detached_head := false, remote_count := 0, remote_names := [],
    branch_count := 0, branch_names := [], tag_count := 0,
    submodule_names := [], index_changes := false,
    working_tree_changes := false, commit_count := 0, untracked_count := 0,
    stash := false, last_commit_datetime := none,
    branch_name := NO_BRANCH_DISPLAY_NAME, behind_count := 0,
    ahead_count := 0, fetch_status := none, up_to_date := true,
    warning := none }

/-- The spec's concrete scenario: branches `main` (tracking `origin/main`,
2 commits ahead, 1 behind) and `dev` (no tracking branch), one remote. -/
def rMain : GitRepo :=
  { bare := false, headDetached := false, remoteNames := ["origin"],
    branches := [⟨"main", some "origin/main"⟩, ⟨"dev", none⟩],
    tagCount := 1, submoduleNames := [], indexDirtyRaw := false,
    workingTreeDirtyRaw := false, untrackedCount := 0, stashListLen := 0,
    commits := [⟨0, [], 10⟩, ⟨1, [0], 20⟩, ⟨2, [1], 30⟩, ⟨3, [0], 40⟩],
    headCommit := some 2, activeBranch := some "main",
    refs := [("main", 2), ("dev", 0), ("origin/main", 3)] }

def envMainNoFetch : ReadEnv :=
  { repo := some rMain, fetchRemotes := false, stopFrom := none,
    fetchResult := fun _ => FetchFlags.OK }

/-- The record `read_repo ["home", "proj", ".git"] envMainNoFetch`
returns. -/
def infoMain : RepoInfo :=
  { name := "proj", repo_dir := ["home", "proj"], containing_dir := ["home"],
    bare := false, detached_head := false, remote_count := 1,
    remote_names := ["origin"], branch_count := 2,
    branch_names := ["main", "dev"], tag_count := 1, submodule_names := [],
    index_changes := false, working_tree_changes := false, commit_count := 3,
    untracked_count := 0, stash := false, last_commit_datetime := some 30,
    branch_name := "main", behind_count := 1, ahead_count := 2,
    fetch_status := none, up_to_date := false,
    warning := some UNFETCHED_REMOTE_WARNING }


/-! ## C1: parallel scan preserves length and order -/

/-- C1: for every scan request, the list `read_repo_parallel` returns has
exactly the same length as the input path list, and the `i`-th slot is the
result of reading the `i`-th input path (a status record or `none`); no
slot is dropped or reordered. -/
theorem C1_parallel_order (paths : List (List String)) (f : Bool)
    (world : List String → ReadEnv) :
    (read_repo_parallel paths f world).length = paths.length ∧
    ∀ i : Nat, (read_repo_parallel paths f world)[i]? =
      (paths[i]?).map
        (fun p => read_repo p { world p with fetchRemotes := f }) := by
  refine ⟨List.length_map _ _, fun i => ?_⟩
  simp [read_repo_parallel]

/-! ## C10: `up_to_date` is derived from the two counts -/

/-- C10: every record `read_repo` returns carries `up_to_date = true` iff
both `ahead_count` and `behind_count` are zero. -/
theorem C10_up_to_date (path : List String) (env : ReadEnv)
    (info : RepoInfo) (h : read_repo path env = some info) :
    info.up_to_date = true ↔
      (info.ahead_count = 0 ∧ info.behind_count = 0) := by
  obtain ⟨r, ex, times, counts, -, -, -, -, hinfo⟩ := read_repo_some_elim h
  subst hinfo
  simp [buildInfo, and_comm]

/-- Witness for C10 at a concrete input. -/
theorem C10_witness :
    read_repo ["repo"] envEmpty = some infoEmpty ∧
    (infoEmpty.up_to_date = true ↔
      (infoEmpty.ahead_count = 0 ∧ infoEmpty.behind_count = 0)) :=
  ⟨by decide, C10_up_to_date ["repo"] envEmpty infoEmpty (by decide)⟩

/-! ## C4: warning priority -/

/-- The warning priority rule exactly as the claim words it: the
unfetched warning when remotes were not fetched and at least one remote
exists, else the fetch-failed warning when the aggregate outcome contains
the ERROR flag, else the fetch-timed-out warning when it contains the
TIMEOUT flag, else no warning (an absent aggregate contains no flags). -/
def warningPriority (remotesNotFetched : Bool) (remoteCount : Nat)
    (fs : Option FetchFlags) : Option String :=
  if remotesNotFetched = true ∧ remoteCount > 0 then
    some UNFETCHED_REMOTE_WARNING
  else if (fs.map FetchFlags.error).getD false = true then
    some FETCH_FAILED_WARNING
  else if (fs.map FetchFlags.timeout).getD false = true then
    some FETCH_TIMEOUT_WARNING
  else none

/-- The source's warning chain computes the claim's priority rule. -/
theorem computeWarning_eq_priority (f : Bool) (rc : Nat)
    (fs : Option FetchFlags) :
    computeWarning f rc fs = warningPriority (!f) rc fs := by
  by_cases hrc : rc > 0 <;> cases f <;> rcases fs with _ | fl <;>
    simp [computeWarning, warningPriority, hrc]

/-- C4: in every record `read_repo` returns, the warning field is chosen
by the strict priority unfetched-with-remotes, then fetch-error, then
fetch-timeout, then none ("remotes were not fetched" being the scan's
fetch flag turned off). -/
theorem C4_warning_priority (path : List String) (env : ReadEnv)
    (info : RepoInfo) (h : read_repo path env = some info) :
    info.warning = warningPriority (!env.fetchRemotes) info.remote_count
      info.fetch_status := by
  obtain ⟨r, ex, times, counts, -, -, -, -, hinfo⟩ := read_repo_some_elim h
  subst hinfo
  simp [buildInfo, computeWarning_eq_priority]

/-- Witness for C4: fetch disabled with one remote yields the unfetched
warning. -/
theorem C4_witness :
    read_repo ["home", "proj", ".git"] envMainNoFetch = some infoMain ∧
    infoMain.warning = warningPriority (!envMainNoFetch.fetchRemotes)
      infoMain.remote_count infoMain.fetch_status :=
  ⟨by decide, C4_warning_priority ["home", "proj", ".git"] envMainNoFetch
    infoMain (by decide)⟩

/-! ## C5: bare-repository invariants

The claim also asserts `detached_head = false` for every bare repository
"regardless of the underlying repository data".  The source reports
`repo.head.is_detached` unconditionally (read.py line 179), and git
permits a bare repository whose HEAD file holds a raw commit id, for
which the accessor reports a detached HEAD; such a repository is read
successfully with `detached_head = true`. -/

/-- A bare repository whose HEAD is a raw commit id (detached), with
nonempty underlying dirty/untracked/stash data. -/
def rBareDetached : GitRepo :=
  { bare := true, headDetached := true, remoteNames := [], branches := [],
    tagCount := 0, submoduleNames := [], indexDirtyRaw := true,
    workingTreeDirtyRaw := true, untrackedCount := 7, stashListLen := 5,
    commits := [⟨0, [], 1⟩], headCommit := some 0, activeBranch := none,
    refs := [] }

def envBareDetached : ReadEnv :=
  { repo := some rBareDetached, fetchRemotes := true, stopFrom := none,
    fetchResult := fun _ => FetchFlags.OK }

/-- The record `read_repo ["srv", "repo.git"] envBareDetached` returns. -/
def infoBareDetached : RepoInfo :=
  { name := "repo", repo_dir := ["srv", "repo.git"],
    containing_dir := ["srv"], bare := true, detached_head := true,
    remote_count := 0, remote_names := [], branch_count := 0,
    branch_names := [], tag_count := 0, submodule_names := [],
    index_changes := false, working_tree_changes := false,
    commit_count := 1, untracked_count := 0, stash := false,
    last_commit_datetime := none,
    branch_name := DETACHED_BRANCH_DISPLAY_NAME, behind_count := 0,
    ahead_count := 0, fetch_status := none, up_to_date := true,
    warning := none }

/-- The `(bare, detached_head)` view of a read result. -/
def bareDetachedView (o : Option RepoInfo) : Option (Bool × Bool) :=
  o.map (fun i => (i.bare, i.detached_head))

/-- C5 counterexample: a bare repository is read successfully with
`detached_head = true`, so the claimed `detached_head = false` for every
bare repository does not hold. -/
theorem C5_counterexample :
    bareDetachedView (read_repo ["srv", "repo.git"] envBareDetached) =
      some (true, true) := by decide

/-- C5 amended: for every bare repository successfully read, the returned
record has `untracked_count = 0`, `stash = false`,
`working_tree_changes = false` and `index_changes = false` regardless of
the underlying repository data (`detached_head` instead reflects the
repository's actual HEAD state). -/
theorem C5_bare_invariants_amended (path : List String) (env : ReadEnv)
    (info : RepoInfo) (h : read_repo path env = some info)
    (hb : info.bare = true) :
    info.untracked_count = 0 ∧ info.stash = false ∧
    info.working_tree_changes = false ∧ info.index_changes = false := by
  obtain ⟨r, ex, times, counts, -, -, -, -, hinfo⟩ := read_repo_some_elim h
  subst hinfo
  have hrb : r.bare = true := by simpa [buildInfo] using hb
  simp [buildInfo, GitRepo.isDirty, hrb]

/-- Witness for the amended C5 at a concrete bare repository. -/
theorem C5_witness :
    read_repo ["srv", "repo.git"] envBareDetached = some infoBareDetached ∧
    (infoBareDetached.untracked_count = 0 ∧ infoBareDetached.stash = false ∧
     infoBareDetached.working_tree_changes = false ∧
     infoBareDetached.index_changes = false) :=
  ⟨by decide, C5_bare_invariants_amended ["srv", "repo.git"] envBareDetached
    infoBareDetached (by decide) (by decide)⟩

/-! ## C2: fetch supervisor outcomes -/

/-- C2: whenever `git_fetch_with_timeout` returns, the result is exactly
one of the four atoms; a natural subprocess exit yields OK for exit code
zero and ERROR otherwise (with no kill performed); either timeout yields
TIMEOUT and a cancellation yields CANCEL, in both cases after killing the
whole process tree and then waiting (bounded) on the top-level subprocess
handle.  The function is total on its environment: a subprocess failure
(nonzero exit code) is an ordinary returned outcome, not an exception. -/
theorem C2_fetch_outcomes (ticks : List Tick) (startA tA tB : Int)
    (res : FetchCallResult) (code : Int)
    (h : git_fetch_with_timeout ticks startA tA tB = some res) :
    res.status.isAtom = true ∧
    (pollLoop startA ticks ⟨startA, tA, tB, false⟩ = LoopExit.natural code →
      res = ⟨if code ≠ 0 then FetchFlags.ERROR else FetchFlags.OK,
             false, false⟩) ∧
    ((pollLoop startA ticks ⟨startA, tA, tB, false⟩ = LoopExit.timeoutIdle ∨
      pollLoop startA ticks ⟨startA, tA, tB, false⟩ =
        LoopExit.timeoutOverall) →
      res = ⟨FetchFlags.TIMEOUT, true, true⟩) ∧
    (pollLoop startA ticks ⟨startA, tA, tB, false⟩ = LoopExit.stopped →
      res = ⟨FetchFlags.CANCEL, true, true⟩) := by
  unfold git_fetch_with_timeout at h
  split at h
  · exact absurd h (by simp)
  · next c heq =>
    rw [heq]
    have hres : res =
        ⟨if c ≠ 0 then FetchFlags.ERROR else FetchFlags.OK, false, false⟩ :=
      (Option.some_inj.mp h).symm
    subst hres
    refine ⟨?_, ?_, ?_, ?_⟩
    · by_cases hc : c = 0
      · rw [if_neg (by simp [hc])]; decide
      · rw [if_pos hc]; decide
    · intro hn
      injection hn with h1
      subst h1
      rfl
    · rintro (hn | hn) <;> exact absurd hn (by simp)
    · intro hn
      exact absurd hn (by simp)
  · next heq =>
    rw [heq]
    have hres : res = ⟨FetchFlags.TIMEOUT, true, true⟩ :=
      (Option.some_inj.mp h).symm
    subst hres
    exact ⟨by decide, fun hn => absurd hn (by simp), fun _ => rfl,
      fun hn => absurd hn (by simp)⟩
  · next heq =>
    rw [heq]
    have hres : res = ⟨FetchFlags.TIMEOUT, true, true⟩ :=
      (Option.some_inj.mp h).symm
    subst hres
    exact ⟨by decide, fun hn => absurd hn (by simp), fun _ => rfl,
      fun hn => absurd hn (by simp)⟩
  · next heq =>
    rw [heq]
    have hres : res = ⟨FetchFlags.CANCEL, true, true⟩ :=
      (Option.some_inj.mp h).symm
    subst hres
    refine ⟨by decide, fun hn => absurd hn (by simp), ?_, fun _ => rfl⟩
    rintro (hn | hn) <;> exact absurd hn (by simp)

/-- A concrete supervision trace: one alive poll then a natural exit with
code 1. -/
def ticksC2 : List Tick :=
  [⟨none, [ProcStatus.running], 1, false⟩, ⟨some 1, [], 2, false⟩]

/-- Witness for C2: a subprocess failing with exit code 1 yields the
ERROR outcome with no kill. -/
theorem C2_witness :
    git_fetch_with_timeout ticksC2 0 10 2 =
      some ⟨FetchFlags.ERROR, false, false⟩ ∧
    ((⟨FetchFlags.ERROR, false, false⟩ : FetchCallResult).status.isAtom = true ∧
     (pollLoop 0 ticksC2 ⟨0, 10, 2, false⟩ = LoopExit.natural 1 →
       (⟨FetchFlags.ERROR, false, false⟩ : FetchCallResult) =
         ⟨if (1 : Int) ≠ 0 then FetchFlags.ERROR else FetchFlags.OK,
          false, false⟩) ∧
     ((pollLoop 0 ticksC2 ⟨0, 10, 2, false⟩ = LoopExit.timeoutIdle ∨
       pollLoop 0 ticksC2 ⟨0, 10, 2, false⟩ = LoopExit.timeoutOverall) →
       (⟨FetchFlags.ERROR, false, false⟩ : FetchCallResult) =
         ⟨FetchFlags.TIMEOUT, true, true⟩) ∧
     (pollLoop 0 ticksC2 ⟨0, 10, 2, false⟩ = LoopExit.stopped →
       (⟨FetchFlags.ERROR, false, false⟩ : FetchCallResult) =
         ⟨FetchFlags.CANCEL, true, true⟩)) :=
  ⟨by decide, C2_fetch_outcomes ticksC2 0 10 2
    ⟨FetchFlags.ERROR, false, false⟩ 1 (by decide)⟩

/-! ## C6: aggregate ahead/behind counts -/

/-- As the claim words it: the number of commits reachable from the local
branch but not from its tracking branch (0 where no resolving tracking
branch exists, so a filtered sum is unaffected). -/
def specAhead (r : GitRepo) (b : Branch) : Nat :=
  match b.tracking with
  | none => 0
  | some tn =>
    match refTip r b.name, refTip r tn with
    | some bt, some tt => rangeCount r.commits tt bt
    | _, _ => 0

/-- The converse count: reachable from the tracking branch but not from
the local branch. -/
def specBehind (r : GitRepo) (b : Branch) : Nat :=
  match b.tracking with
  | none => 0
  | some tn =>
    match refTip r b.name, refTip r tn with
    | some bt, some tt => rangeCount r.commits bt tt
    | _, _ => 0

/-- A successful ahead/behind accumulation computes, over the branches
whose tracking branch resolves, the sums of the per-branch counts. -/
theorem countsFold_some (r : GitRepo) (bs : List Branch) :
    ∀ (a0 b0 : Nat) (ab : Nat × Nat),
      countsFold r bs (a0, b0) = some ab →
      ab.1 = a0 + ((bs.filter (fun b => trackedResolves r b)).map
        (fun b => specAhead r b)).sum ∧
      ab.2 = b0 + ((bs.filter (fun b => trackedResolves r b)).map
        (fun b => specBehind r b)).sum := by
  induction bs with
  | nil =>
    intro a0 b0 ab h
    simp only [countsFold, Option.some_inj] at h
    subst h
    simp
  | cons b rest ih =>
    intro a0 b0 ab h
    by_cases ht : trackedResolves r b = true
    · rw [countsFold, if_pos ht] at h
      rcases htr : b.tracking with _ | tn
      · rw [trackedResolves, htr] at ht
        exact absurd ht (by simp)
      · rcases hA : branchAhead r b with _ | x
        · rw [hA] at h
          exact absurd h (by simp)
        · rcases hB : branchBehind r b with _ | y
          · rw [hA, hB] at h
            exact absurd h (by simp)
          · rw [hA, hB] at h
            change countsFold r rest (a0 + x, b0 + y) = some ab at h
            obtain ⟨iha, ihb⟩ := ih _ _ _ h
            rcases hbt : refTip r b.name with _ | bt <;>
              rcases htt : refTip r tn with _ | tt <;>
              simp only [branchAhead, branchBehind, htr, hbt, htt,
                Option.some_inj, reduceCtorEq] at hA hB
            have hsa : specAhead r b = rangeCount r.commits tt bt := by
              simp only [specAhead, htr, hbt, htt]
            have hsb : specBehind r b = rangeCount r.commits bt tt := by
              simp only [specBehind, htr, hbt, htt]
            simp only [List.filter_cons_of_pos ht, List.map_cons,
              List.sum_cons, hsa, hsb]
            refine ⟨?_, ?_⟩
            · show ab.1 = a0 + (rangeCount r.commits tt bt +
                (List.map (fun b => specAhead r b)
                  (List.filter (fun b => trackedResolves r b) rest)).sum)
              omega
            · show ab.2 = b0 + (rangeCount r.commits bt tt +
                (List.map (fun b => specBehind r b)
                  (List.filter (fun b => trackedResolves r b) rest)).sum)
              omega
    · rw [countsFold, if_neg ht] at h
      obtain ⟨iha, ihb⟩ := ih _ _ _ h
      rw [List.filter_cons_of_neg ht]
      exact ⟨iha, ihb⟩

/-- C6: for every successfully read non-bare repository with at least one
local branch, `ahead_count` is the sum over branches with a resolving
tracking reference of the commits reachable from the branch but not its
tracking branch, and `behind_count` the converse sum; for a bare or
branch-less repository both counts are zero. -/
theorem C6_ahead_behind (path : List String) (env : ReadEnv) (r : GitRepo)
    (info : RepoInfo) (hr : env.repo = some r)
    (h : read_repo path env = some info) :
    ((r.bare = false ∧ r.branches ≠ []) →
      info.ahead_count = ((r.branches.filter
        (fun b => trackedResolves r b)).map (fun b => specAhead r b)).sum ∧
      info.behind_count = ((r.branches.filter
        (fun b => trackedResolves r b)).map (fun b => specBehind r b)).sum) ∧
    ((r.bare = true ∨ r.branches = []) →
      info.ahead_count = 0 ∧ info.behind_count = 0) := by
  obtain ⟨r', ex, times, counts, hr', hex, ht, hc, hinfo⟩ :=
    read_repo_some_elim h
  rw [hr] at hr'
  injection hr' with hrr
  subst hrr
  subst hinfo
  by_cases hguard : (!r.bare && r.branches.length != 0) = true
  · rw [fetchAndCounts, if_pos hguard] at hc
    split at hc
    · exact absurd hc (by simp)
    · next fs hfs =>
      split at hc
      · exact absurd hc (by simp)
      · next ab hcf =>
        obtain ⟨haba, habb⟩ := countsFold_some r r.branches 0 0 ab hcf
        have hcounts : (ab.1, ab.2, fs) = counts := Option.some_inj.mp hc
        subst hcounts
        constructor
        · intro _
          constructor
          · show ab.1 = _
            omega
          · show ab.2 = _
            omega
        · intro hcontra
          simp only [Bool.and_eq_true, Bool.not_eq_true', bne_iff_ne,
            ne_eq] at hguard
          rcases hcontra with hb | hb
          · rw [hguard.1] at hb
            exact absurd hb (by simp)
          · exact absurd (by simp [hb] : r.branches.length = 0) hguard.2
  · rw [fetchAndCounts, if_neg hguard] at hc
    have hcounts : ((0, 0, none) : Nat × Nat × Option FetchFlags) = counts :=
      Option.some_inj.mp hc
    subst hcounts
    constructor
    · intro hcon
      exfalso
      apply hguard
      obtain ⟨hb, hbr⟩ := hcon
      have hlen : r.branches.length ≠ 0 :=
        fun hl => hbr (List.length_eq_zero.mp hl)
      simp [hb, bne_iff_ne, hlen]
    · intro _
      exact ⟨rfl, rfl⟩

/-- Witness for C6 at the spec's concrete two-branch scenario (observed
counts: 2 ahead, 1 behind). -/
theorem C6_witness :
    read_repo ["home", "proj", ".git"] envMainNoFetch = some infoMain ∧
    (((rMain.bare = false ∧ rMain.branches ≠ []) →
      infoMain.ahead_count = ((rMain.branches.filter
        (fun b => trackedResolves rMain b)).map
          (fun b => specAhead rMain b)).sum ∧
      infoMain.behind_count = ((rMain.branches.filter
        (fun b => trackedResolves rMain b)).map
          (fun b => specBehind rMain b)).sum) ∧
     ((rMain.bare = true ∨ rMain.branches = []) →
      infoMain.ahead_count = 0 ∧ infoMain.behind_count = 0)) :=
  ⟨by decide, C6_ahead_behind ["home", "proj", ".git"] envMainNoFetch rMain
    infoMain rfl (by decide)⟩

/-! ## C9: last-commit timestamp -/

/-- A successful branch-tip timestamp collection lists exactly the tip
timestamps, one per branch. -/
theorem tipTimesList_eq_some (r : GitRepo) (bs : List Branch) :
    ∀ ts, tipTimesList r bs = some ts →
      bs.filterMap (tipTime r) = ts ∧ ts.length = bs.length := by
  induction bs with
  | nil =>
    intro ts h
    simp only [tipTimesList, Option.some_inj] at h
    subst h
    simp
  | cons b rest ih =>
    intro ts h
    rcases h1 : tipTime r b with _ | t <;>
      rcases h2 : tipTimesList r rest with _ | ts' <;>
      rw [tipTimesList, h1, h2] at h <;>
      simp only [reduceCtorEq, Option.some_inj] at h
    subst h
    obtain ⟨hfm, hlen⟩ := ih ts' h2
    simp [List.filterMap_cons, h1, hfm, hlen]

/-- The maximum tip timestamp over all local branches, as the claim words
it (`none` when there is nothing to take a maximum of). -/
def maxTipTime (r : GitRepo) : Option Int :=
  match r.branches.filterMap (tipTime r) with
  | [] => none
  | t :: ts => some (ts.foldl max t)

/-- A repository with commits but no local branches: HEAD is detached at
the only commit. -/
def rNoBranch : GitRepo :=
  { bare := false, headDetached := true, remoteNames := [], branches := [],
    tagCount := 0, submoduleNames := [], indexDirtyRaw := false,
    workingTreeDirtyRaw := false, untrackedCount := 0, stashListLen := 0,
    commits := [⟨0, [], 5⟩], headCommit := some 0, activeBranch := none,
    refs := [] }

def envNoBranch : ReadEnv :=
  { repo := some rNoBranch, fetchRemotes := false, stopFrom := none,
    fetchResult := fun _ => FetchFlags.OK }

/-- The `(last_commit_datetime, commit_count)` view of a read result. -/
def lastCommitView (o : Option RepoInfo) : Option (Option Int × Nat) :=
  o.map (fun i => (i.last_commit_datetime, i.commit_count))

/-- C9 counterexample: a repository whose object store holds a commit
(`commit_count = 1`) but that has no local branches is read successfully
with `last_commit_datetime = none`, so "none exactly when no commits
exist anywhere in the repository" fails. -/
theorem C9_counterexample :
    lastCommitView (read_repo ["work", "r"] envNoBranch) = some (none, 1) ∧
    rNoBranch.commits ≠ [] :=
  ⟨by decide, by decide⟩

/-- C9 amended: `last_commit_datetime` is the maximum commit timestamp
across the tips of all local branches and is `none` exactly when the
repository has no local branches (not: no commits anywhere). -/
theorem C9_last_commit_amended (path : List String) (env : ReadEnv)
    (r : GitRepo) (info : RepoInfo) (hr : env.repo = some r)
    (h : read_repo path env = some info) :
    info.last_commit_datetime = maxTipTime r ∧
    (info.last_commit_datetime = none ↔ r.branches = []) := by
  obtain ⟨r', ex, times, counts, hr', hex, ht, hc, hinfo⟩ :=
    read_repo_some_elim h
  rw [hr] at hr'
  injection hr' with hrr
  subst hrr
  subst hinfo
  rw [lastCommitTimes] at ht
  obtain ⟨hfm, hlen⟩ := tipTimesList_eq_some r r.branches times ht
  have hmain : lastCommitDatetime times = maxTipTime r := by
    rw [maxTipTime, hfm]
    cases times <;> rfl
  constructor
  · show lastCommitDatetime times = maxTipTime r
    exact hmain
  · show lastCommitDatetime times = none ↔ r.branches = []
    cases times with
    | nil =>
      simp only [lastCommitDatetime, true_iff]
      exact (List.length_eq_zero.mp hlen.symm)
    | cons t ts =>
      simp only [lastCommitDatetime, reduceCtorEq, false_iff]
      intro hbr
      rw [hbr] at hlen
      exact absurd hlen (by simp)

/-- Witness for the amended C9 at the two-branch scenario repository
(maximum tip timestamp 30). -/
theorem C9_witness :
    read_repo ["home", "proj", ".git"] envMainNoFetch = some infoMain ∧
    (infoMain.last_commit_datetime = maxTipTime rMain ∧
     (infoMain.last_commit_datetime = none ↔ rMain.branches = [])) :=
  ⟨by decide, C9_last_commit_amended ["home", "proj", ".git"] envMainNoFetch
    rMain infoMain rfl (by decide)⟩

/-! ## C8: the nullable aggregate fetch outcome -/

/-- The union of a list of single fetch outcomes, absent when the list is
empty (as the claim words it: "bitwise union of the single outcome of
each remote's fetch attempt", with no attempts represented as absence). -/
def unionOutcomes (fs : List FetchFlags) : Option FetchFlags :=
  match fs with
  | [] => none
  | f :: rest => some (rest.foldl FetchFlags.union f)

/-- The nullable accumulation step sequence of the source's fetch loop,
as a fold. -/
def accUnion (acc : Option FetchFlags) (fs : List FetchFlags) :
    Option FetchFlags :=
  fs.foldl (fun a f =>
    match a with
    | none => some f
    | some x => some (x.union f)) acc

theorem accUnion_some (fs : List FetchFlags) :
    ∀ a, accUnion (some a) fs = some (fs.foldl FetchFlags.union a) := by
  induction fs with
  | nil => intro a; rfl
  | cons g gs ih => intro a; exact ih (a.union g)

theorem accUnion_none_eq (fs : List FetchFlags) :
    accUnion none fs = unionOutcomes fs := by
  cases fs with
  | nil => rfl
  | cons f rest => exact accUnion_some rest f

/-- A completed fetch loop returns the accumulated union of the
outcomes of the remotes it visited, in order. -/
theorem fetchLoop_some_eq (fr : Nat → FetchFlags) (stopFrom : Option Nat) :
    ∀ (rem : List String) (i : Nat) (acc out : Option FetchFlags),
      fetchLoop fr stopFrom rem i acc = some out →
      out = accUnion acc ((List.range rem.length).map (fun j => fr (i + j))) := by
  intro rem
  induction rem with
  | nil =>
    intro i acc out h
    simp only [fetchLoop, Option.some_inj] at h
    subst h
    rfl
  | cons x rest ih =>
    intro i acc out h
    by_cases hs : stopSeen stopFrom (i + 1) = true
    · simp only [fetchLoop] at h
      rw [if_pos hs] at h
      exact absurd h (by simp)
    · simp only [fetchLoop] at h
      rw [if_neg hs] at h
      have hstep := ih (i + 1) _ out h
      rw [hstep]
      rw [List.length_cons, List.range_succ_eq_map, List.map_cons,
        List.map_map]
      have harg : ((fun j => fr (i + j)) ∘ Nat.succ) =
          (fun j => fr (i + 1 + j)) := by
        funext j
        simp only [Function.comp]
        rw [show i + Nat.succ j = i + 1 + j by omega]
      rw [harg, show i + 0 = i from rfl]
      rfl

theorem union_ne_empty_left (a b : FetchFlags)
    (ha : a ≠ FetchFlags.empty) : a.union b ≠ FetchFlags.empty := by
  intro h
  apply ha
  cases a with
  | mk t e c o =>
    cases b with
    | mk t2 e2 c2 o2 =>
      simp only [FetchFlags.union, FetchFlags.empty, FetchFlags.mk.injEq,
        Bool.or_eq_false_iff] at h ⊢
      exact ⟨h.1.1, h.2.1.1, h.2.2.1.1, h.2.2.2.1⟩

theorem foldl_union_ne_empty (fs : List FetchFlags) :
    ∀ a, a ≠ FetchFlags.empty → fs.foldl FetchFlags.union a ≠ FetchFlags.empty := by
  induction fs with
  | nil => intro a ha; exact ha
  | cons g gs ih => intro a ha; exact ih _ (union_ne_empty_left a g ha)

theorem atom_ne_empty (f : FetchFlags) (h : f.isAtom = true) :
    f ≠ FetchFlags.empty := by
  intro hf
  rw [hf] at h
  exact absurd h (by decide)

/-- C8: in every record `read_repo` returns, the aggregate fetch outcome
is absent exactly when no fetch attempt was made (fetch disabled, bare,
no branches — all giving the `else` branch — or no remotes, giving the
empty union), otherwise it is the bitwise union of each remote's single
outcome, and it is never a present-but-empty flag set. -/
theorem C8_fetch_status (path : List String) (env : ReadEnv) (r : GitRepo)
    (info : RepoInfo) (hr : env.repo = some r)
    (h : read_repo path env = some info)
    (hatoms : ∀ i, i < r.remoteNames.length →
      (env.fetchResult i).isAtom = true) :
    info.fetch_status =
      (if env.fetchRemotes = true ∧ r.bare = false ∧ r.branches ≠ [] then
        unionOutcomes
          ((List.range r.remoteNames.length).map env.fetchResult)
       else none) ∧
    (∀ f, info.fetch_status = some f → f ≠ FetchFlags.empty) := by
  obtain ⟨r', ex, times, counts, hr', hex, ht, hc, hinfo⟩ :=
    read_repo_some_elim h
  rw [hr] at hr'
  injection hr' with hrr
  subst hrr
  subst hinfo
  by_cases hguard : (!r.bare && r.branches.length != 0) = true
  · have hguard' : r.bare = false ∧ r.branches ≠ [] := by
      simp only [Bool.and_eq_true, Bool.not_eq_true', bne_iff_ne,
        ne_eq] at hguard
      exact ⟨hguard.1, fun hb => hguard.2 (by simp [hb])⟩
    rw [fetchAndCounts, if_pos hguard] at hc
    split at hc
    · exact absurd hc (by simp)
    · next fs hfs =>
      split at hc
      · exact absurd hc (by simp)
      · next ab hcf =>
        have hcounts : (ab.1, ab.2, fs) = counts := Option.some_inj.mp hc
        subst hcounts
        by_cases hfr : env.fetchRemotes = true
        · rw [if_pos hfr] at hfs
          have hout := fetchLoop_some_eq env.fetchResult env.stopFrom
            r.remoteNames 0 none fs hfs
          have hzero : ((List.range r.remoteNames.length).map
              (fun j => env.fetchResult (0 + j))) =
              ((List.range r.remoteNames.length).map env.fetchResult) := by
            apply List.map_congr_left
            intro j _
            rw [show 0 + j = j from by omega]
          rw [hzero, accUnion_none_eq] at hout
          constructor
          · show fs = _
            rw [if_pos ⟨hfr, hguard'.1, hguard'.2⟩]
            exact hout
          · intro f hf
            have hmem : ∀ g ∈ (List.range r.remoteNames.length).map
                env.fetchResult, g.isAtom = true := by
              intro g hg
              obtain ⟨j, hj, hgj⟩ := List.mem_map.mp hg
              rw [← hgj]
              exact hatoms j (List.mem_range.mp hj)
            have hf' : fs = some f := hf
            rw [hout] at hf'
            rcases hn : ((List.range r.remoteNames.length).map
                env.fetchResult) with _ | ⟨f0, fsrest⟩
            · rw [hn] at hf'
              exact Option.noConfusion hf'
            · rw [hn] at hf'
              simp only [unionOutcomes, Option.some_inj] at hf'
              subst hf'
              apply foldl_union_ne_empty
              apply atom_ne_empty
              exact hmem f0 (hn ▸ List.mem_cons_self f0 fsrest)
        · rw [if_neg hfr] at hfs
          have hfs' : (none : Option FetchFlags) = fs :=
            Option.some_inj.mp hfs
          subst hfs'
          constructor
          · show (none : Option FetchFlags) = _
            rw [if_neg (fun hcon => hfr hcon.1)]
          · intro f hf
            exact Option.noConfusion hf
  · rw [fetchAndCounts, if_neg hguard] at hc
    have hcounts : ((0, 0, none) : Nat × Nat × Option FetchFlags) = counts :=
      Option.some_inj.mp hc
    subst hcounts
    constructor
    · show (none : Option FetchFlags) = _
      rw [if_neg]
      intro hcon
      apply hguard
      simp only [Bool.and_eq_true, Bool.not_eq_true', bne_iff_ne, ne_eq]
      exact ⟨hcon.2.1, fun hl => hcon.2.2 (List.length_eq_zero.mp hl)⟩
    · intro f hf
      exact Option.noConfusion hf

def envMainFetch : ReadEnv :=
  { repo := some rMain, fetchRemotes := true, stopFrom := none,
    fetchResult := fun _ => FetchFlags.ERROR }

/-- The record `read_repo ["home", "proj", ".git"] envMainFetch`
returns. -/
def infoMainFetch : RepoInfo :=
  { name := "proj", repo_dir := ["home", "proj"], containing_dir := ["home"],
    bare := false, detached_head := false, remote_count := 1,
    remote_names := ["origin"], branch_count := 2,
    branch_names := ["main", "dev"], tag_count := 1, submodule_names := [],
    index_changes := false, working_tree_changes := false, commit_count := 3,
    untracked_count := 0, stash := false, last_commit_datetime := some 30,
    branch_name := "main", behind_count := 1, ahead_count := 2,
    fetch_status := some FetchFlags.ERROR, up_to_date := false,
    warning := some FETCH_FAILED_WARNING }

/-- Witness for C8: one remote fetched with outcome ERROR yields the
present singleton union. -/
theorem C8_witness :
    read_repo ["home", "proj", ".git"] envMainFetch = some infoMainFetch ∧
    (infoMainFetch.fetch_status =
      (if envMainFetch.fetchRemotes = true ∧ rMain.bare = false ∧
          rMain.branches ≠ [] then
        unionOutcomes
          ((List.range rMain.remoteNames.length).map envMainFetch.fetchResult)
       else none) ∧
     (∀ f, infoMainFetch.fetch_status = some f → f ≠ FetchFlags.empty)) :=
  ⟨by decide, C8_fetch_status ["home", "proj", ".git"] envMainFetch rMain
    infoMainFetch rfl (by decide) (fun i hi => rfl)⟩

/-! ## C3: when does `read_repo` return null -/

/-- The tip-timestamp loop fails exactly when some branch's tip cannot be
read. -/
theorem tipTimesList_none_iff (r : GitRepo) (bs : List Branch) :
    tipTimesList r bs = none ↔
      bs.any (fun b => (tipTime r b).isNone) = true := by
  induction bs with
  | nil => simp [tipTimesList]
  | cons b rest ih =>
    cases h1 : tipTime r b with
    | none => simp [tipTimesList, h1]
    | some t =>
      cases h2 : tipTimesList r rest with
      | none =>
        have hrest := ih.mp h2
        simp [tipTimesList, h1, h2, hrest]
      | some ts =>
        have hf : rest.any (fun b => (tipTime r b).isNone) = false := by
          rw [← Bool.not_eq_true]
          intro hc
          rw [ih.mpr hc] at h2
          exact Option.noConfusion h2
        simp [tipTimesList, h1, h2, hf]

/-- The fetch loop aborts exactly when the stop event is observed set at
one of its per-remote observations. -/
theorem fetchLoop_none_iff (fr : Nat → FetchFlags) (stopFrom : Option Nat) :
    ∀ (rem : List String) (i : Nat) (acc : Option FetchFlags),
      fetchLoop fr stopFrom rem i acc = none ↔
        ∃ j, j < rem.length ∧ stopSeen stopFrom (i + j + 1) = true := by
  intro rem
  induction rem with
  | nil =>
    intro i acc
    simp [fetchLoop]
  | cons x rest ih =>
    intro i acc
    simp only [fetchLoop]
    by_cases hs : stopSeen stopFrom (i + 1) = true
    · rw [if_pos hs]
      constructor
      · intro _
        exact ⟨0, by simp, by simpa using hs⟩
      · intro _
        rfl
    · rw [if_neg hs]
      rw [ih (i + 1)]
      constructor
      · rintro ⟨j, hj, hstop⟩
        refine ⟨j + 1, by simp only [List.length_cons]; omega, ?_⟩
        have harith : i + (j + 1) + 1 = i + 1 + j + 1 := by omega
        rw [harith]
        exact hstop
      · rintro ⟨j, hj, hstop⟩
        cases j with
        | zero =>
          exfalso
          apply hs
          simpa using hstop
        | succ j' =>
          refine ⟨j', by simp only [List.length_cons] at hj; omega, ?_⟩
          have harith : i + 1 + j' + 1 = i + (j' + 1) + 1 := by omega
          rw [harith]
          exact hstop

/-- A ref name resolves exactly when it occurs among the repo's refs. -/
theorem refTip_isSome_iff (r : GitRepo) (nm : String) :
    (refTip r nm).isSome = true ↔ nm ∈ refNames r := by
  constructor
  · intro h
    rcases hf : r.refs.find? (fun x => x.fst = nm) with _ | p
    · rw [refTip, hf] at h
      exact absurd h (by simp)
    · have hmem := List.mem_of_find?_eq_some hf
      have hp := List.find?_some hf
      simp only [decide_eq_true_eq] at hp
      rw [refNames]
      exact List.mem_map.mpr ⟨p, hmem, hp⟩
  · intro h
    rw [refNames] at h
    obtain ⟨p, hpmem, hpf⟩ := List.mem_map.mp h
    rcases hf : r.refs.find? (fun x => x.fst = nm) with _ | q
    · rw [List.find?_eq_none] at hf
      have := hf p hpmem
      simp only [decide_eq_true_eq] at this
      exact absurd hpf this
    · rw [refTip, hf]
      rfl

/-- After a successful tip-timestamp pass, every branch name resolves. -/
theorem tipTimesList_some_resolves (r : GitRepo) (bs : List Branch) :
    ∀ ts, tipTimesList r bs = some ts →
      ∀ b ∈ bs, (refTip r b.name).isSome = true := by
  induction bs with
  | nil =>
    intro ts _ b hb
    exact absurd hb (by simp)
  | cons b0 rest ih =>
    intro ts hts b hb
    rcases h1 : tipTime r b0 with _ | t <;>
      rcases h2 : tipTimesList r rest with _ | ts' <;>
      rw [tipTimesList, h1, h2] at hts
    · exact Option.noConfusion hts
    · exact Option.noConfusion hts
    · exact Option.noConfusion hts
    · rcases List.mem_cons.mp hb with hb0 | hbrest
      · subst hb0
        rw [tipTime] at h1
        rcases Option.bind_eq_some.mp h1 with ⟨tipc, htip, -⟩
        rw [htip]
        rfl
      · exact ih ts' h2 b hbrest

/-- With every branch name resolving, the ahead/behind accumulation
cannot fail. -/
theorem countsFold_ne_none (r : GitRepo) (bs : List Branch) :
    ∀ ab, (∀ b ∈ bs, (refTip r b.name).isSome = true) →
      countsFold r bs ab ≠ none := by
  induction bs with
  | nil =>
    intro ab _ h
    exact Option.noConfusion h
  | cons b rest ih =>
    intro ab hres h
    by_cases ht : trackedResolves r b = true
    · rw [countsFold, if_pos ht] at h
      rcases htr : b.tracking with _ | tn
      · rw [trackedResolves, htr] at ht
        exact absurd ht (by simp)
      · have hbn : (refTip r b.name).isSome = true := hres b (by simp)
        have htn : (refTip r tn).isSome = true := by
          rw [refTip_isSome_iff]
          rw [trackedResolves, htr] at ht
          simpa [List.contains] using ht
        rcases hbt : refTip r b.name with _ | bt
        · rw [hbt] at hbn
          exact absurd hbn (by simp)
        · rcases htt : refTip r tn with _ | tt
          · rw [htt] at htn
            exact absurd htn (by simp)
          · have hA : branchAhead r b = some (rangeCount r.commits tt bt) := by
              simp only [branchAhead, htr, hbt, htt]
            have hB : branchBehind r b = some (rangeCount r.commits bt tt) := by
              simp only [branchBehind, htr, hbt, htt]
            rw [hA, hB] at h
            change countsFold r rest
              (ab.1 + rangeCount r.commits tt bt,
               ab.2 + rangeCount r.commits bt tt) = none at h
            exact ih _ (fun b' hb' => hres b' (by simp [hb'])) h
    · rw [countsFold, if_neg ht] at h
      exact ih _ (fun b' hb' => hres b' (by simp [hb'])) h

/-- As the claim words it, `read_repo` yields null exactly when: the
repository cannot be opened, or any modelled git error occurs during the
read (name extraction on a degenerate path, or an unreadable branch
tip), or the shared cancellation signal is observed set before any work
(observation 0) or between per-remote fetches (observation `i + 1`
before the `i`-th remote, in the fetch branch). -/
def readAbortsSpec (path : List String) (env : ReadEnv) : Bool :=
  match env.repo with
  | none => true
  | some r =>
    stopSeen env.stopFrom 0 ||
    (extract_repo_name path).isNone ||
    r.branches.any (fun b => (tipTime r b).isNone) ||
    (!r.bare && r.branches.length != 0 && env.fetchRemotes &&
      (List.range r.remoteNames.length).any
        (fun i => stopSeen env.stopFrom (i + 1)))

/-- C3: `read_repo` returns null exactly when the repository cannot be
opened or read (any modelled exception) or the cancellation signal is
observed set before any work or between per-remote fetches; otherwise it
returns a fully-populated record. -/
theorem C3_null_iff (path : List String) (env : ReadEnv) :
    read_repo path env = none ↔ readAbortsSpec path env = true := by
  rcases henv : env.repo with _ | r
  · constructor
    · intro _
      simp [readAbortsSpec, henv]
    · intro _
      rw [read_repo]
      split
      · rfl
      · rw [henv]
        rfl
  · by_cases h0 : stopSeen env.stopFrom 0 = true
    · simp [read_repo, readAbortsSpec, henv, h0]
    · have h0' : stopSeen env.stopFrom 0 = false := by
        revert h0
        cases stopSeen env.stopFrom 0 <;> simp
      rcases hex : extract_repo_name path with _ | ex
      · simp [read_repo, readAbortsSpec, henv, h0', hex]
      · rcases ht : lastCommitTimes r with _ | times
        · have hany : r.branches.any (fun b => (tipTime r b).isNone) = true := by
            rw [← tipTimesList_none_iff]
            rw [lastCommitTimes] at ht
            exact ht
          simp [read_repo, readAbortsSpec, henv, h0', hex, ht, hany]
        · have hany : r.branches.any (fun b => (tipTime r b).isNone) = false := by
            rw [← Bool.not_eq_true]
            intro hc
            have hn := (tipTimesList_none_iff r r.branches).mpr hc
            rw [lastCommitTimes, hn] at ht
            exact Option.noConfusion ht
          have hresolves : ∀ b ∈ r.branches,
              (refTip r b.name).isSome = true := by
            rw [lastCommitTimes] at ht
            exact tipTimesList_some_resolves r r.branches times ht
          have hL : read_repo path env = (fetchAndCounts r env).map
              (fun counts => buildInfo r env.fetchRemotes ex times counts) := by
            rw [read_repo, if_neg h0, henv]
            simp only [Option.some_bind]
            rw [hex]
            simp only [Option.some_bind]
            rw [ht]
            simp only [Option.some_bind]
          have hRHS : readAbortsSpec path env =
              (!r.bare && r.branches.length != 0 && env.fetchRemotes &&
                (List.range r.remoteNames.length).any
                  (fun i => stopSeen env.stopFrom (i + 1))) := by
            simp only [readAbortsSpec, henv, h0', hex, Option.isNone_some,
              hany, Bool.false_or]
          rw [hL, hRHS, Option.map_eq_none']
          rw [fetchAndCounts]
          by_cases hguard : (!r.bare && r.branches.length != 0) = true
          · rw [if_pos hguard]
            by_cases hfr : env.fetchRemotes = true
            · rw [if_pos hfr]
              simp only [hguard, hfr, Bool.true_and]
              constructor
              · intro hnone
                split at hnone
                · next hfl =>
                  obtain ⟨j, hj, hstop⟩ := (fetchLoop_none_iff
                    env.fetchResult env.stopFrom r.remoteNames 0 none).mp hfl
                  rw [List.any_eq_true]
                  exact ⟨j, List.mem_range.mpr hj, by simpa using hstop⟩
                · next fs hfs =>
                  split at hnone
                  · next hcf =>
                    exact absurd hcf
                      (countsFold_ne_none r r.branches (0, 0) hresolves)
                  · exact Option.noConfusion hnone
              · intro hX
                rw [List.any_eq_true] at hX
                obtain ⟨j, hjmem, hstop⟩ := hX
                have hfl : fetchLoop env.fetchResult env.stopFrom
                    r.remoteNames 0 none = none :=
                  (fetchLoop_none_iff env.fetchResult env.stopFrom
                    r.remoteNames 0 none).mpr
                    ⟨j, List.mem_range.mp hjmem, by simpa using hstop⟩
                rw [hfl]
            · rw [if_neg hfr]
              constructor
              · intro hnone
                rcases hcf : countsFold r r.branches (0, 0) with _ | ab
                · exact absurd hcf
                    (countsFold_ne_none r r.branches (0, 0) hresolves)
                · rw [hcf] at hnone
                  exact Option.noConfusion hnone
              · intro hX
                exfalso
                simp [hfr] at hX
          · rw [if_neg hguard]
            constructor
            · intro hnone
              exact Option.noConfusion hnone
            · intro hX
              exfalso
              simp only [Bool.and_eq_true] at hX
              apply hguard
              rw [Bool.and_eq_true]
              exact hX.1.1

/-! ## C7: repository search -/

mutual
/-- The walk's output from one directory is exactly the visited
directories below it that classify as repository roots, in walk order. -/
theorem walkFrom_eq_visited (excl : List (List String))
    (path : List String) :
    (t : FSTree) → walkFrom excl path t =
      ((visitedDirs excl path t).filter
        (classifiedVisited excl)).map Prod.fst
  | .node ds files => by
    rw [walkFrom, visitedDirs]
    by_cases hcl : isRepoRoot excl path ds files = true
    · rw [if_pos hcl, List.filter_cons_of_pos
        (by simpa [classifiedVisited] using hcl), List.map_cons]
      rw [walkKids_eq_visited excl path ds]
      rfl
    · rw [if_neg hcl, List.filter_cons_of_neg
        (by simpa [classifiedVisited] using hcl)]
      rw [walkKids_eq_visited excl path ds]
      rfl

/-- Child-list version of `walkFrom_eq_visited`. -/
theorem walkKids_eq_visited (excl : List (List String))
    (path : List String) :
    (ds : FSList) → walkKids excl path ds =
      ((visitedKids excl path ds).filter
        (classifiedVisited excl)).map Prod.fst
  | .nil => rfl
  | .cons x t rest => by
    rw [walkKids, visitedKids, List.filter_append, List.map_append]
    rw [walkKids_eq_visited excl path rest]
    by_cases hk : keepChild excl path x = true
    · rw [if_pos hk, if_pos hk, walkFrom_eq_visited excl (path ++ [x]) t]
    · rw [if_neg hk, if_neg hk]
      rfl
end

/-- A one-directory filesystem: the start directory itself is a git
metadata directory (HEAD file, refs and objects subdirectories). -/
def exTreeC7 : FSTree :=
  .node (.cons "refs" (.node .nil [])
    (.cons "objects" (.node .nil []) .nil)) ["HEAD"]

/-- C7 counterexample: with `exclude_dirs = [start]`, the start directory
is itself excluded, yet `find_git_repos` still returns it — exclusion is
only ever applied to children of a visited directory (search.py line 24),
never to the start directory.  This refutes "never includes any
repository whose path is an excluded directory or a descendant of
one". -/
theorem C7_counterexample :
    find_git_repos ["root"] exTreeC7 [["root"]] = [["root"]] := by decide

/-- C7 amended: `find_git_repos` returns the lexicographically sorted
list of exactly those visited directories whose file list contains HEAD
and whose pruning-surviving child list contains refs and objects, where
the start directory is always visited (exclusion never applies to it)
and a child of a visited directory is visited iff its path is not in
`exclude_dirs` and it is not named `modules` under a directory whose name
has stem `.git`. -/
theorem C7_find_amended (start : List String) (t : FSTree)
    (excl : List (List String)) :
    find_git_repos start t excl =
      List.insertionSort pathLe
        (((visitedDirs excl start t).filter
          (classifiedVisited excl)).map Prod.fst) ∧
    List.Sorted pathLe (find_git_repos start t excl) := by
  constructor
  · rw [find_git_repos, walkFrom_eq_visited]
  · rw [find_git_repos]
    exact List.sorted_insertionSort pathLe _
